import Mathlib

/-!
Shallow embedding of `tpl.go` (wii-tools/libtpl): conversion of an in-memory
raster image into TPL texture data (formats I4, IA4, RGB565, RGB5A3) plus the
fixed binary TPL header.

Modelling conventions:
* Go `uint32` / `byte` / `uint16` values are `Nat` with explicit masks
  (`&&& 0xff`, `&&& 0xffff`) exactly where the Go code casts or masks.
* A Go slice is a `List Nat`.  An indexing read `raw[i]` is `raw[i]?` threaded
  through `Option`: Go panics on an out-of-range read, the model returns
  `none`.  Sequential writes `output[inp] = v; inp++` into the preallocated
  buffer `make([]byte, N)` are modelled by collecting the written bytes in
  order and padding with the buffer's zero fill; a write past `N` (a Go panic)
  again yields `none`.
* `image.Image` is a structure carrying the bounds and the `At(x,y).RGBA()`
  channel function.  Negative bounds (where Go would panic allocating a
  negative-size slice) are outside every claim and outside the model's scope.
-/

/-- Go `image.Image` as used by the code: bounds plus the per-pixel
`At(x,y).RGBA()` result (four channel values; Go returns 16-bit-range values,
the code masks them to 8 bits itself). -/
structure GoImage where
  minX : Int
  minY : Int
  maxX : Int
  maxY : Int
  pixAt : Int → Int → Nat × Nat × Nat × Nat

/-- `for i := lo; i < hi; i++` index sequence. -/
def rangeInt (lo hi : Int) : List Int :=
  (List.range (hi - lo).toNat).map (fun (i : Nat) => lo + (i : Int))

/-- The packing `((a&0xff)<<24) | ((r&0xff)<<16) | ((g&0xff)<<8) | ((b&0xff)<<0)`
from `imageToRGBA`. -/
def packRGBA (c : Nat × Nat × Nat × Nat) : Nat :=
  ((c.2.2.2 &&& 0xff) <<< 24) ||| ((c.1 &&& 0xff) <<< 16) |||
    ((c.2.1 &&& 0xff) <<< 8) ||| ((c.2.2.1 &&& 0xff) <<< 0)

/-- `imageToRGBA`: row-major flat texel array, `size.Min` to `size.Max`
exclusive; the Go code allocates `(Max.X-Min.X)*(Max.Y-Min.Y)` words and fills
them sequentially, which is exactly this list. -/
def imageToRGBA (img : GoImage) : List Nat :=
  ((rangeInt img.minY img.maxY).map (fun y =>
    (rangeInt img.minX img.maxX).map (fun x => packRGBA (img.pixAt x y)))).flatten

/-- `addPadding`: round `value` up to the next multiple of `padding`
(unchanged when already a multiple). -/
def addPadding (value padding : Nat) : Nat :=
  if value % padding ≠ 0 then value + (padding - value % padding) else value

/-- Index sequence of `for v := 0; v < bound; v += step` (`step > 0`). -/
def stepRange (bound step : Nat) : List Nat :=
  (List.range ((bound + step - 1) / step)).map (fun i => i * step)

/-- Sequence a list of optional results: `none` as soon as one entry is
`none` (a Go panic aborts the whole conversion). -/
def seqOpt {α : Type} : List (Option α) → Option (List α)
  | [] => some []
  | none :: _ => none
  | some x :: rest =>
    match seqOpt rest with
    | none => none
    | some xs => some (x :: xs)

/-- Write the collected bytes sequentially into the zero-initialised buffer
`make([]byte, n)`: overflow (a write past the end, a Go panic) is `none`,
otherwise the unwritten tail keeps its zero fill. -/
def fillBuffer (chunks : List (Option (List Nat))) (n : Nat) : Option (List Nat) :=
  (seqOpt chunks).bind (fun ws =>
    if ws.flatten.length ≤ n then some (ws.flatten ++ List.replicate (n - ws.flatten.length) 0)
    else none)

/-! ## TPL header (`makeTPLHeader`, struct `TPL`) -/

/-- TextureFormat constant `I4`. -/
def I4 : Nat := 0
/-- TextureFormat constant `IA4`. -/
def IA4 : Nat := 2
/-- TextureFormat constant `RGB565`. -/
def RGB565 : Nat := 4
/-- TextureFormat constant `RGB5A3`. -/
def RGB5A3 : Nat := 5

/-- `binary.Write`'s big-endian serialization of a `uint32` field. -/
def u32BE (n : Nat) : List Nat :=
  [(n >>> 24) &&& 0xff, (n >>> 16) &&& 0xff, (n >>> 8) &&& 0xff, n &&& 0xff]

/-- `binary.Write`'s big-endian serialization of a `uint16` field (the Go code
reaches it through the cast `uint16(width)`, i.e. the value modulo 2^16, which
the two byte masks realise). -/
def u16BE (n : Nat) : List Nat :=
  [(n >>> 8) &&& 0xff, n &&& 0xff]

/-- The 56 header bytes: `FileHeader{Magic, NumOfImages=1, ImageTableOff=0xC}`,
`ImageOff=20`, `PaletteOff=0`, then `ImageHeader{Height, Width, Format,
DataOffset=64, WrapS=0, WrapT=0, MinFilter=1, MagFilter=1, LODBias=0 (float32
zero serializes as the four zero bytes of its IEEE-754 bit pattern), EdgeLOD=0,
MidLOD=0, MaxLOD=0, Unpacked=0}`, packed big-endian with no padding
(`encoding/binary` struct layout). -/
def tplHeaderBytes (format width height : Nat) : List Nat :=
  u32BE 0x0020AF30 ++ u32BE 1 ++ u32BE 0x0C ++
    u32BE 20 ++ u32BE 0 ++
    u16BE height ++ u16BE width ++ u32BE format ++ u32BE 64 ++
    u32BE 0 ++ u32BE 0 ++ u32BE 1 ++ u32BE 1 ++
    u32BE 0 ++ [0, 0, 0, 0]

/-- `makeTPLHeader`: serialize the `TPL` struct into a fresh buffer and append
the raw payload (`buf.Write(raw)`).  `binary.Write` to a `bytes.Buffer` cannot
fail, so the function is total. -/
def makeTPLHeader (raw : List Nat) (format width height : Nat) : List Nat :=
  tplHeaderBytes format width height ++ raw

/-! ## I4 encoder (`ToI4`) -/

/-- Texel positions visited by `ToI4`'s four nested loops: 8×8 blocks, inner
x stepping by 2 (one output byte covers two horizontally consecutive texels). -/
def i4Indices (width height : Nat) : List (Nat × Nat) :=
  ((stepRange height 8).map (fun y1 =>
    ((stepRange width 8).map (fun x1 =>
      ((List.range 8).map (fun dy =>
        (List.range 4).map (fun dx => (x1 + dx * 2, y1 + dy)))).flatten)).flatten)).flatten

/-- The per-texel intensity-quantize computation of `ToI4`: channels read at
bits 0/8/16 of the packed word, `i := ((r+g+b)/3) & 0xff`, then `(i*15)/255`. -/
def texQuant (rgba : Nat) : Nat :=
  ((((rgba >>> 0) &&& 0xff) + ((rgba >>> 8) &&& 0xff) + ((rgba >>> 16) &&& 0xff)) / 3 &&& 0xff)
    * 15 / 255

/-- Body of `ToI4`'s innermost loop: the single output byte for the texel pair
at `(x, y)` and `(x+1, y)`.  Out-of-image positions produce the byte 0; the
second texel falls back to a zero word when its linear index is outside `raw`. -/
def i4Byte (raw : List Nat) (width height x y : Nat) : Option Nat :=
  if x ≥ width ∨ y ≥ height then some 0
  else
    match raw[x + y * width]? with
    | none => none
    | some rgba =>
      let r := (rgba >>> 0) &&& 0xff
      let g := (rgba >>> 8) &&& 0xff
      let b := (rgba >>> 16) &&& 0xff
      let i1 := ((r + g + b) / 3) &&& 0xff
      let rgba2 := if x + y * width + 1 ≥ raw.length then 0 else raw.getD (x + y * width + 1) 0
      let r2 := (rgba2 >>> 0) &&& 0xff
      let g2 := (rgba2 >>> 8) &&& 0xff
      let b2 := (rgba2 >>> 16) &&& 0xff
      let i2 := ((r2 + g2 + b2) / 3) &&& 0xff
      some (((((i1 * 15) / 255) <<< 4) ||| (((i2 * 15) / 255) &&& 0xf)) &&& 0xff)

/-- `ToI4`'s loop nest and output buffer (`make([]byte, pad(w,8)*pad(h,8)/2)`). -/
def i4Go (raw : List Nat) (width height : Nat) : Option (List Nat) :=
  fillBuffer
    ((i4Indices width height).map (fun p =>
      (i4Byte raw width height p.1 p.2).map (fun v => [v])))
    (addPadding width 8 * addPadding height 8 / 2)

/-- `ToI4`. -/
def ToI4 (img : GoImage) : Option (List Nat) :=
  (i4Go (imageToRGBA img) img.maxX.toNat img.maxY.toNat).map
    (fun output => makeTPLHeader output I4 img.maxX.toNat img.maxY.toNat)

/-! ## IA4 encoder (`ToIA4`) -/

/-- Texel positions visited by `ToIA4`: blocks 8 wide (`x1 += 8`) and 4 high
(`y1 += 4`), texels row-major inside each block. -/
def tileIndices (width height bw bh : Nat) : List (Nat × Nat) :=
  ((stepRange height bh).map (fun y1 =>
    ((stepRange width bw).map (fun x1 =>
      ((List.range bh).map (fun dy =>
        (List.range bw).map (fun dx => (x1 + dx, y1 + dy)))).flatten)).flatten)).flatten

/-- Per-texel byte of `ToIA4`: low nibble quantized intensity, high nibble
quantized alpha. -/
def ia4Pixel (rgba : Nat) : Nat :=
  let r := (rgba >>> 0) &&& 0xff
  let g := (rgba >>> 8) &&& 0xff
  let b := (rgba >>> 16) &&& 0xff
  let i := ((r + g + b) / 3) &&& 0xff
  let a := (rgba >>> 24) &&& 0xff
  ((((i * 15) / 255) &&& 0xf) ||| (((a * 15) / 255) <<< 4)) &&& 0xff

/-- Body of `ToIA4`'s innermost loop. -/
def ia4Byte (raw : List Nat) (width height x y : Nat) : Option Nat :=
  if y ≥ height ∨ x ≥ width then some 0
  else
    match raw[x + y * width]? with
    | none => none
    | some rgba => some (ia4Pixel rgba)

/-- `ToIA4`'s loop nest and output buffer (`make([]byte, pad(w,8)*pad(h,4))`). -/
def ia4Go (raw : List Nat) (width height : Nat) : Option (List Nat) :=
  fillBuffer
    ((tileIndices width height 8 4).map (fun p =>
      (ia4Byte raw width height p.1 p.2).map (fun v => [v])))
    (addPadding width 8 * addPadding height 4)

/-- `ToIA4`. -/
def ToIA4 (img : GoImage) : Option (List Nat) :=
  (ia4Go (imageToRGBA img) img.maxX.toNat img.maxY.toNat).map
    (fun output => makeTPLHeader output IA4 img.maxX.toNat img.maxY.toNat)

/-! ## RGB565 encoder (`ToRGB565`) -/

/-- Per-texel 16-bit value of `ToRGB565`.  Note the channel extraction: the
code reads `b` from bits 16–23 and `r` from bits 0–7 of the packed word, but
`imageToRGBA` stores red in bits 16–23 and blue in bits 0–7, so the variable
`b` actually holds the red channel and `r` the blue channel.  The final
`uint16` cast is the `&&& 0xffff`. -/
def rgb565Pixel (rgb : Nat) : Nat :=
  let b := (rgb >>> 16) &&& 0xff
  let g := (rgb >>> 8) &&& 0xff
  let r := (rgb >>> 0) &&& 0xff
  (((r >>> 3) <<< 0) ||| ((g >>> 2) <<< 5) ||| ((b >>> 3) <<< 11)) &&& 0xffff

/-- Body of `ToRGB565`'s innermost loop: the two bytes written for position
`(x, y)` (`newPixel` stays 0 for out-of-image positions; both bytes are always
emitted, the writes sit after the `if`). -/
def rgb565Chunk (raw : List Nat) (width height x y : Nat) : Option (List Nat) :=
  match (if y ≥ height ∨ x ≥ width then some 0
         else (raw[x + y * width]?).map rgb565Pixel) with
  | none => none
  | some newPixel => some [(newPixel >>> 8) &&& 0xff, newPixel &&& 0xff]

/-- `ToRGB565`'s loop nest and output buffer (`make([]byte, pad(w,4)*pad(h,4)*2)`). -/
def rgb565Go (raw : List Nat) (width height : Nat) : Option (List Nat) :=
  fillBuffer
    ((tileIndices width height 4 4).map (fun p => rgb565Chunk raw width height p.1 p.2))
    (addPadding width 4 * addPadding height 4 * 2)

/-- `ToRGB565`. -/
def ToRGB565 (img : GoImage) : Option (List Nat) :=
  (rgb565Go (imageToRGBA img) img.maxX.toNat img.maxY.toNat).map
    (fun output => makeTPLHeader output RGB565 img.maxX.toNat img.maxY.toNat)

/-! ## RGB5A3 encoder (`ToRGB5A3`) -/

/-- Per-texel 16-bit value of `ToRGB5A3` (channel extraction here matches
`imageToRGBA`'s layout: red from bits 16–23, blue from bits 0–7).  The
`newPixel &= ^(1<<15)` on the 4-4-4-3 path clears bit 15 of the zero word and
is a no-op. -/
def rgb5a3Pixel (rgba : Nat) : Nat :=
  let r := (rgba >>> 16) &&& 0xff
  let g := (rgba >>> 8) &&& 0xff
  let b := (rgba >>> 0) &&& 0xff
  let a := (rgba >>> 24) &&& 0xff
  if a ≤ 0xda then
    ((((a * 7) / 255) &&& 0x7) <<< 12) ||| ((((r * 15) / 255) &&& 0xf) <<< 8) |||
      ((((g * 15) / 255) &&& 0xf) <<< 4) ||| (((b * 15) / 255) &&& 0xf)
  else
    (1 <<< 15) ||| ((((r * 31) / 255) &&& 0x1f) <<< 10) |||
      ((((g * 31) / 255) &&& 0x1f) <<< 5) ||| (((b * 31) / 255) &&& 0x1f)

/-- Body of `ToRGB5A3`'s innermost loop.  Unlike `ToRGB565`, the two `z++;
output[z] = ...` writes sit inside the `else` branch, so an out-of-image
position emits no bytes at all. -/
def rgb5a3Chunk (raw : List Nat) (width height x y : Nat) : Option (List Nat) :=
  if y ≥ height ∨ x ≥ width then some []
  else
    match raw[x + y * width]? with
    | none => none
    | some rgba =>
      some [(rgb5a3Pixel rgba >>> 8) &&& 0xff, rgb5a3Pixel rgba &&& 0xff]

/-- `ToRGB5A3`'s loop nest and output buffer (`make([]byte, pad(w,4)*pad(h,4)*2)`). -/
def rgb5a3Go (raw : List Nat) (width height : Nat) : Option (List Nat) :=
  fillBuffer
    ((tileIndices width height 4 4).map (fun p => rgb5a3Chunk raw width height p.1 p.2))
    (addPadding width 4 * addPadding height 4 * 2)

/-- `ToRGB5A3`. -/
def ToRGB5A3 (img : GoImage) : Option (List Nat) :=
  (rgb5a3Go (imageToRGBA img) img.maxX.toNat img.maxY.toNat).map
    (fun output => makeTPLHeader output RGB5A3 img.maxX.toNat img.maxY.toNat)

/-! ## Helper images for concrete evaluations -/

/-- An image with bounds min `(0,0)`, max `(w,h)` and the given pixel map. -/
def mkImage (w h : Nat) (pix : Int → Int → Nat × Nat × Nat × Nat) : GoImage :=
  ⟨0, 0, (w : Int), (h : Int), pix⟩

/-! ## Arithmetic toolkit: bit operations on `Nat` as `/`, `%`, `*`, `+` -/

theorem or_shl_add (x y k m : Nat) (hm : 2 ^ k = m) (h : y < m) :
    x <<< k ||| y = x * m + y := by
  subst hm
  calc x <<< k ||| y = 2 ^ k * x ||| y := by rw [Nat.shiftLeft_eq, Nat.mul_comm]
    _ = 2 ^ k * x + y := (Nat.mul_add_lt_is_or h x).symm
    _ = x * 2 ^ k + y := by rw [Nat.mul_comm]

theorem and255 (x : Nat) : x &&& 255 = x % 256 := by
  have h := Nat.and_pow_two_sub_one_eq_mod x 8
  norm_num at h
  exact h

theorem and15 (x : Nat) : x &&& 15 = x % 16 := by
  have h := Nat.and_pow_two_sub_one_eq_mod x 4
  norm_num at h
  exact h

theorem and7 (x : Nat) : x &&& 7 = x % 8 := by
  have h := Nat.and_pow_two_sub_one_eq_mod x 3
  norm_num at h
  exact h

theorem and31 (x : Nat) : x &&& 31 = x % 32 := by
  have h := Nat.and_pow_two_sub_one_eq_mod x 5
  norm_num at h
  exact h

theorem and65535 (x : Nat) : x &&& 65535 = x % 65536 := by
  have h := Nat.and_pow_two_sub_one_eq_mod x 16
  norm_num at h
  exact h

theorem shr2 (x : Nat) : x >>> 2 = x / 4 := by
  rw [Nat.shiftRight_eq_div_pow]

theorem shr3 (x : Nat) : x >>> 3 = x / 8 := by
  rw [Nat.shiftRight_eq_div_pow]

theorem shr4 (x : Nat) : x >>> 4 = x / 16 := by
  rw [Nat.shiftRight_eq_div_pow]

theorem shr8 (x : Nat) : x >>> 8 = x / 256 := by
  rw [Nat.shiftRight_eq_div_pow]

theorem shr15 (x : Nat) : x >>> 15 = x / 32768 := by
  rw [Nat.shiftRight_eq_div_pow]

theorem shr16 (x : Nat) : x >>> 16 = x / 65536 := by
  rw [Nat.shiftRight_eq_div_pow]

theorem shr24 (x : Nat) : x >>> 24 = x / 16777216 := by
  rw [Nat.shiftRight_eq_div_pow]

/-- `packRGBA` in plain arithmetic. -/
theorem packRGBA_arith (r g b a : Nat) :
    packRGBA (r, g, b, a) =
      (a % 256) * 16777216 + (r % 256) * 65536 + (g % 256) * 256 + b % 256 := by
  show ((a &&& 0xff) <<< 24) ||| ((r &&& 0xff) <<< 16) |||
      ((g &&& 0xff) <<< 8) ||| ((b &&& 0xff) <<< 0) = _
  rw [Nat.shiftLeft_zero, and255, and255, and255, and255, Nat.or_assoc, Nat.or_assoc]
  rw [or_shl_add (g % 256) (b % 256) 8 256 (by norm_num) (by omega)]
  rw [or_shl_add (r % 256) _ 16 65536 (by norm_num) (by omega)]
  rw [or_shl_add (a % 256) _ 24 16777216 (by norm_num) (by omega)]
  ring

theorem packRGBA_bits0 (r g b a : Nat) :
    (packRGBA (r, g, b, a) >>> 0) &&& 0xff = b % 256 := by
  rw [Nat.shiftRight_zero, and255, packRGBA_arith]
  omega

theorem packRGBA_bits8 (r g b a : Nat) :
    (packRGBA (r, g, b, a) >>> 8) &&& 0xff = g % 256 := by
  rw [shr8, and255, packRGBA_arith]
  omega

theorem packRGBA_bits16 (r g b a : Nat) :
    (packRGBA (r, g, b, a) >>> 16) &&& 0xff = r % 256 := by
  rw [shr16, and255, packRGBA_arith]
  omega

theorem packRGBA_bits24 (r g b a : Nat) :
    (packRGBA (r, g, b, a) >>> 24) &&& 0xff = a % 256 := by
  rw [shr24, and255, packRGBA_arith]
  omega

/-- `ToRGB565`'s per-texel value in plain arithmetic, on a word packed by
`imageToRGBA`: the low 5 bits hold the *blue* channel, bits 11–15 the *red*
channel (the code's `r`/`b` variables are swapped relative to the packing). -/
theorem rgb565Pixel_pack (r g b a : Nat) :
    rgb565Pixel (packRGBA (r, g, b, a)) =
      (b % 256) / 8 + ((g % 256) / 4) * 32 + ((r % 256) / 8) * 2048 := by
  simp only [rgb565Pixel, packRGBA_bits0, packRGBA_bits8, packRGBA_bits16]
  rw [Nat.shiftLeft_zero]
  simp only [shr2, shr3]
  rw [Nat.or_comm ((b % 256) / 8) (((g % 256) / 4) <<< 5)]
  rw [or_shl_add ((g % 256) / 4) ((b % 256) / 8) 5 32 (by norm_num) (by omega)]
  rw [Nat.or_comm _ (((r % 256) / 8) <<< 11)]
  rw [or_shl_add ((r % 256) / 8) _ 11 2048 (by norm_num) (by omega)]
  rw [and65535, Nat.mod_eq_of_lt (by omega)]
  ring

/-- `ToRGB5A3`'s per-texel value in plain arithmetic (here the channel
extraction matches the packing, so `r` really is red). -/
theorem rgb5a3Pixel_pack (r g b a : Nat) :
    rgb5a3Pixel (packRGBA (r, g, b, a)) =
      if a % 256 ≤ 218 then
        ((a % 256) * 7 / 255) * 4096 + ((r % 256) * 15 / 255) * 256 +
          ((g % 256) * 15 / 255) * 16 + (b % 256) * 15 / 255
      else
        32768 + ((r % 256) * 31 / 255) * 1024 + ((g % 256) * 31 / 255) * 32 +
          (b % 256) * 31 / 255 := by
  simp only [rgb5a3Pixel, packRGBA_bits0, packRGBA_bits8, packRGBA_bits16, packRGBA_bits24]
  by_cases h : a % 256 ≤ 218
  · rw [if_pos h, if_pos h]
    simp only [and7, and15]
    rw [Nat.mod_eq_of_lt (show (a % 256) * 7 / 255 < 8 by omega)]
    rw [Nat.mod_eq_of_lt (show (r % 256) * 15 / 255 < 16 by omega)]
    rw [Nat.mod_eq_of_lt (show (g % 256) * 15 / 255 < 16 by omega)]
    rw [Nat.mod_eq_of_lt (show (b % 256) * 15 / 255 < 16 by omega)]
    rw [Nat.or_assoc, Nat.or_assoc]
    rw [or_shl_add ((g % 256) * 15 / 255) ((b % 256) * 15 / 255) 4 16
      (by norm_num) (by omega)]
    rw [or_shl_add ((r % 256) * 15 / 255) _ 8 256 (by norm_num) (by omega)]
    rw [or_shl_add ((a % 256) * 7 / 255) _ 12 4096 (by norm_num) (by omega)]
    ring
  · rw [if_neg h, if_neg h]
    simp only [and31]
    rw [Nat.mod_eq_of_lt (show (r % 256) * 31 / 255 < 32 by omega)]
    rw [Nat.mod_eq_of_lt (show (g % 256) * 31 / 255 < 32 by omega)]
    rw [Nat.mod_eq_of_lt (show (b % 256) * 31 / 255 < 32 by omega)]
    rw [Nat.or_assoc, Nat.or_assoc]
    rw [or_shl_add ((g % 256) * 31 / 255) ((b % 256) * 31 / 255) 5 32
      (by norm_num) (by omega)]
    rw [or_shl_add ((r % 256) * 31 / 255) _ 10 1024 (by norm_num) (by omega)]
    rw [or_shl_add 1 _ 15 32768 (by norm_num) (by omega)]
    ring

/-- `ToIA4`'s per-texel byte in plain arithmetic: quantized intensity in the
low nibble, quantized alpha in the high nibble. -/
theorem ia4Pixel_pack (r g b a : Nat) :
    ia4Pixel (packRGBA (r, g, b, a)) =
      (b % 256 + g % 256 + r % 256) / 3 * 15 / 255 + ((a % 256) * 15 / 255) * 16 := by
  simp only [ia4Pixel, packRGBA_bits0, packRGBA_bits8, packRGBA_bits16, packRGBA_bits24]
  simp only [and255, and15]
  rw [Nat.mod_eq_of_lt (show (b % 256 + g % 256 + r % 256) / 3 < 256 by omega)]
  rw [Nat.mod_eq_of_lt (show (b % 256 + g % 256 + r % 256) / 3 * 15 / 255 < 16 by omega)]
  rw [Nat.or_comm]
  rw [or_shl_add ((a % 256) * 15 / 255) _ 4 16 (by norm_num) (by omega)]
  rw [Nat.mod_eq_of_lt (by omega)]
  ring

/-- `texQuant` on a packed word, in terms of the channel values. -/
theorem texQuant_pack (r g b a : Nat) :
    texQuant (packRGBA (r, g, b, a)) = (b % 256 + g % 256 + r % 256) / 3 * 15 / 255 := by
  simp only [texQuant, packRGBA_bits0, packRGBA_bits8, packRGBA_bits16]
  rw [and255]
  omega

/-! ## List machinery for the loop nests -/

theorem seqOpt_all_some {α : Type} :
    ∀ l : List (Option α), (∀ o ∈ l, o.isSome) →
      ∃ r, seqOpt l = some r ∧ r.length = l.length ∧ ∀ c ∈ r, some c ∈ l := by
  intro l
  induction l with
  | nil => intro _; exact ⟨[], rfl, rfl, by simp⟩
  | cons o rest ih =>
    intro hall
    obtain ⟨r, hr, hlen, hmem⟩ := ih (fun o' ho' => hall o' (List.mem_cons_of_mem _ ho'))
    obtain ⟨x, hx⟩ := Option.isSome_iff_exists.mp (hall o (List.mem_cons_self _ _))
    subst hx
    refine ⟨x :: r, ?_, by simp [hlen], ?_⟩
    · simp [seqOpt, hr]
    · intro c hc
      rcases List.mem_cons.mp hc with h1 | h2
      · subst h1; exact List.mem_cons_self _ _
      · exact List.mem_cons_of_mem _ (hmem c h2)

theorem flatten_len_eq {α : Type} (k : Nat) :
    ∀ ws : List (List α), (∀ c ∈ ws, c.length = k) → ws.flatten.length = ws.length * k := by
  intro ws
  induction ws with
  | nil => intro _; simp
  | cons c rest ih =>
    intro hall
    have hc := hall c (List.mem_cons_self _ _)
    have hr := ih (fun d hd => hall d (List.mem_cons_of_mem _ hd))
    rw [List.flatten_cons, List.length_append, List.length_cons, Nat.succ_mul]
    omega

theorem flatten_len_le {α : Type} (k : Nat) :
    ∀ ws : List (List α), (∀ c ∈ ws, c.length ≤ k) → ws.flatten.length ≤ ws.length * k := by
  intro ws
  induction ws with
  | nil => intro _; simp
  | cons c rest ih =>
    intro hall
    have hc := hall c (List.mem_cons_self _ _)
    have hr := ih (fun d hd => hall d (List.mem_cons_of_mem _ hd))
    rw [List.flatten_cons, List.length_append, List.length_cons, Nat.succ_mul]
    omega

theorem stepRange_length (bound step : Nat) :
    (stepRange bound step).length = (bound + step - 1) / step := by
  simp [stepRange]

theorem rangeInt_length (lo hi : Int) : (rangeInt lo hi).length = (hi - lo).toNat := by
  unfold rangeInt
  rw [List.length_map, List.length_range]

theorem fillBuffer_length (chunks : List (Option (List Nat))) (n : Nat) (ws : List (List Nat))
    (hseq : seqOpt chunks = some ws) (hle : ws.flatten.length ≤ n) :
    fillBuffer chunks n = some (ws.flatten ++ List.replicate (n - ws.flatten.length) 0) ∧
      (ws.flatten ++ List.replicate (n - ws.flatten.length) 0).length = n := by
  constructor
  · unfold fillBuffer
    rw [hseq, Option.some_bind, if_pos hle]
  · rw [List.length_append, List.length_replicate]
    omega

theorem tileIndices_length (w h bw bh : Nat) :
    (tileIndices w h bw bh).length
      = ((h + bh - 1) / bh) * (((w + bw - 1) / bw) * (bh * bw)) := by
  unfold tileIndices
  have hrow : ∀ c ∈ (stepRange h bh).map (fun y1 =>
      ((stepRange w bw).map (fun x1 =>
        ((List.range bh).map (fun dy =>
          (List.range bw).map (fun dx => (x1 + dx, y1 + dy)))).flatten)).flatten),
      c.length = ((w + bw - 1) / bw) * (bh * bw) := by
    intro c hc
    obtain ⟨y1, _, rfl⟩ := List.mem_map.mp hc
    have hblk : ∀ d ∈ (stepRange w bw).map (fun x1 =>
        ((List.range bh).map (fun dy =>
          (List.range bw).map (fun dx => (x1 + dx, y1 + dy)))).flatten),
        d.length = bh * bw := by
      intro d hd
      obtain ⟨x1, _, rfl⟩ := List.mem_map.mp hd
      have hln : ∀ e ∈ (List.range bh).map (fun dy =>
          (List.range bw).map (fun dx => (x1 + dx, y1 + dy))), e.length = bw := by
        intro e he
        obtain ⟨dy, _, rfl⟩ := List.mem_map.mp he
        rw [List.length_map, List.length_range]
      rw [flatten_len_eq bw _ hln, List.length_map, List.length_range]
    rw [flatten_len_eq (bh * bw) _ hblk, List.length_map, stepRange_length]
  rw [flatten_len_eq (((w + bw - 1) / bw) * (bh * bw)) _ hrow, List.length_map,
    stepRange_length]

theorem i4Indices_length (w h : Nat) :
    (i4Indices w h).length = ((h + 8 - 1) / 8) * (((w + 8 - 1) / 8) * 32) := by
  unfold i4Indices
  have hrow : ∀ c ∈ (stepRange h 8).map (fun y1 =>
      ((stepRange w 8).map (fun x1 =>
        ((List.range 8).map (fun dy =>
          (List.range 4).map (fun dx => (x1 + dx * 2, y1 + dy)))).flatten)).flatten),
      c.length = ((w + 8 - 1) / 8) * 32 := by
    intro c hc
    obtain ⟨y1, _, rfl⟩ := List.mem_map.mp hc
    have hblk : ∀ d ∈ (stepRange w 8).map (fun x1 =>
        ((List.range 8).map (fun dy =>
          (List.range 4).map (fun dx => (x1 + dx * 2, y1 + dy)))).flatten),
        d.length = 32 := by
      intro d hd
      obtain ⟨x1, _, rfl⟩ := List.mem_map.mp hd
      have hln : ∀ e ∈ (List.range 8).map (fun dy =>
          (List.range 4).map (fun dx => (x1 + dx * 2, y1 + dy))), e.length = 4 := by
        intro e he
        obtain ⟨dy, _, rfl⟩ := List.mem_map.mp he
        rw [List.length_map, List.length_range]
      rw [flatten_len_eq 4 _ hln, List.length_map, List.length_range]
    rw [flatten_len_eq 32 _ hblk, List.length_map, stepRange_length]
  rw [flatten_len_eq (((w + 8 - 1) / 8) * 32) _ hrow, List.length_map, stepRange_length]

theorem index_lt (w h x y len : Nat) (hx : x < w) (hy : y < h) (hlen : w * h ≤ len) :
    x + y * w < len := by
  have h1 : x + y * w < (y + 1) * w := by rw [Nat.succ_mul]; omega
  have h2 : (y + 1) * w ≤ h * w := Nat.mul_le_mul_right w hy
  have h3 : h * w = w * h := Nat.mul_comm h w
  omega

theorem i4Byte_isSome (raw : List Nat) (w h x y : Nat) (hlen : w * h ≤ raw.length) :
    ∃ b, i4Byte raw w h x y = some b := by
  unfold i4Byte
  by_cases hc : x ≥ w ∨ y ≥ h
  · rw [if_pos hc]; exact ⟨0, rfl⟩
  · rw [if_neg hc]
    push_neg at hc
    rw [List.getElem?_eq_getElem (index_lt w h x y raw.length hc.1 hc.2 hlen)]
    exact ⟨_, rfl⟩

theorem ia4Byte_isSome (raw : List Nat) (w h x y : Nat) (hlen : w * h ≤ raw.length) :
    ∃ b, ia4Byte raw w h x y = some b := by
  unfold ia4Byte
  by_cases hc : y ≥ h ∨ x ≥ w
  · rw [if_pos hc]; exact ⟨0, rfl⟩
  · rw [if_neg hc]
    push_neg at hc
    rw [List.getElem?_eq_getElem (index_lt w h x y raw.length hc.2 hc.1 hlen)]
    exact ⟨_, rfl⟩

theorem rgb565Chunk_spec (raw : List Nat) (w h x y : Nat) (hlen : w * h ≤ raw.length) :
    ∃ c, rgb565Chunk raw w h x y = some c ∧ c.length = 2 := by
  unfold rgb565Chunk
  by_cases hc : y ≥ h ∨ x ≥ w
  · rw [if_pos hc]; exact ⟨_, rfl, rfl⟩
  · rw [if_neg hc]
    push_neg at hc
    rw [List.getElem?_eq_getElem (index_lt w h x y raw.length hc.2 hc.1 hlen)]
    exact ⟨_, rfl, rfl⟩

theorem rgb5a3Chunk_spec (raw : List Nat) (w h x y : Nat) (hlen : w * h ≤ raw.length) :
    ∃ c, rgb5a3Chunk raw w h x y = some c ∧ c.length ≤ 2 := by
  unfold rgb5a3Chunk
  by_cases hc : y ≥ h ∨ x ≥ w
  · rw [if_pos hc]; exact ⟨[], rfl, by simp⟩
  · rw [if_neg hc]
    push_neg at hc
    rw [List.getElem?_eq_getElem (index_lt w h x y raw.length hc.2 hc.1 hlen)]
    exact ⟨_, rfl, by simp⟩

theorem i4Go_some (raw : List Nat) (w h : Nat) (hlen : w * h ≤ raw.length) :
    ∃ out, i4Go raw w h = some out ∧
      out.length = addPadding w 8 * addPadding h 8 / 2 := by
  have hall : ∀ o ∈ (i4Indices w h).map (fun p =>
      (i4Byte raw w h p.1 p.2).map (fun v => [v])), o.isSome := by
    intro o ho
    obtain ⟨p, _, rfl⟩ := List.mem_map.mp ho
    obtain ⟨b, hb⟩ := i4Byte_isSome raw w h p.1 p.2 hlen
    rw [hb]
    rfl
  obtain ⟨ws, hseq, hwslen, hmem⟩ := seqOpt_all_some _ hall
  have hchunk : ∀ c ∈ ws, c.length = 1 := by
    intro c hc
    obtain ⟨p, _, hp⟩ := List.mem_map.mp (hmem c hc)
    obtain ⟨b, hb⟩ := i4Byte_isSome raw w h p.1 p.2 hlen
    rw [hb] at hp
    simp only [Option.map_some'] at hp
    injection hp with h1
    rw [← h1]
    rfl
  have hflat : ws.flatten.length = (i4Indices w h).length := by
    rw [flatten_len_eq 1 ws hchunk, hwslen, List.length_map, Nat.mul_one]
  have hN : (i4Indices w h).length = addPadding w 8 * addPadding h 8 / 2 := by
    rw [i4Indices_length]
    have hw8 : addPadding w 8 = (w + 8 - 1) / 8 * 8 := by
      unfold addPadding; split <;> omega
    have hh8 : addPadding h 8 = (h + 8 - 1) / 8 * 8 := by
      unfold addPadding; split <;> omega
    rw [hw8, hh8]
    generalize (w + 8 - 1) / 8 = A
    generalize (h + 8 - 1) / 8 = B
    have hx : A * 8 * (B * 8) = B * (A * 32) * 2 := by ring
    rw [hx, Nat.mul_div_cancel _ (by norm_num : 0 < 2)]
  obtain ⟨hfb, hlen2⟩ := fillBuffer_length _ _ ws hseq (le_of_eq (hflat.trans hN))
  exact ⟨_, hfb, hlen2⟩

theorem ia4Go_some (raw : List Nat) (w h : Nat) (hlen : w * h ≤ raw.length) :
    ∃ out, ia4Go raw w h = some out ∧
      out.length = addPadding w 8 * addPadding h 4 := by
  have hall : ∀ o ∈ (tileIndices w h 8 4).map (fun p =>
      (ia4Byte raw w h p.1 p.2).map (fun v => [v])), o.isSome := by
    intro o ho
    obtain ⟨p, _, rfl⟩ := List.mem_map.mp ho
    obtain ⟨b, hb⟩ := ia4Byte_isSome raw w h p.1 p.2 hlen
    rw [hb]
    rfl
  obtain ⟨ws, hseq, hwslen, hmem⟩ := seqOpt_all_some _ hall
  have hchunk : ∀ c ∈ ws, c.length = 1 := by
    intro c hc
    obtain ⟨p, _, hp⟩ := List.mem_map.mp (hmem c hc)
    obtain ⟨b, hb⟩ := ia4Byte_isSome raw w h p.1 p.2 hlen
    rw [hb] at hp
    simp only [Option.map_some'] at hp
    injection hp with h1
    rw [← h1]
    rfl
  have hflat : ws.flatten.length = (tileIndices w h 8 4).length := by
    rw [flatten_len_eq 1 ws hchunk, hwslen, List.length_map, Nat.mul_one]
  have hN : (tileIndices w h 8 4).length = addPadding w 8 * addPadding h 4 := by
    rw [tileIndices_length]
    have hw8 : addPadding w 8 = (w + 8 - 1) / 8 * 8 := by
      unfold addPadding; split <;> omega
    have hh4 : addPadding h 4 = (h + 4 - 1) / 4 * 4 := by
      unfold addPadding; split <;> omega
    rw [hw8, hh4]
    generalize (w + 8 - 1) / 8 = A
    generalize (h + 4 - 1) / 4 = B
    ring
  obtain ⟨hfb, hlen2⟩ := fillBuffer_length _ _ ws hseq (le_of_eq (hflat.trans hN))
  exact ⟨_, hfb, hlen2⟩

theorem rgb565Go_some (raw : List Nat) (w h : Nat) (hlen : w * h ≤ raw.length) :
    ∃ out, rgb565Go raw w h = some out ∧
      out.length = addPadding w 4 * addPadding h 4 * 2 := by
  have hall : ∀ o ∈ (tileIndices w h 4 4).map (fun p =>
      rgb565Chunk raw w h p.1 p.2), o.isSome := by
    intro o ho
    obtain ⟨p, _, rfl⟩ := List.mem_map.mp ho
    obtain ⟨c, hc, _⟩ := rgb565Chunk_spec raw w h p.1 p.2 hlen
    rw [hc]
    rfl
  obtain ⟨ws, hseq, hwslen, hmem⟩ := seqOpt_all_some _ hall
  have hchunk : ∀ c ∈ ws, c.length = 2 := by
    intro c hc
    obtain ⟨p, _, hp⟩ := List.mem_map.mp (hmem c hc)
    obtain ⟨c', hc', hlen'⟩ := rgb565Chunk_spec raw w h p.1 p.2 hlen
    rw [hc'] at hp
    injection hp with h1
    rw [← h1]
    exact hlen'
  have hflat : ws.flatten.length = (tileIndices w h 4 4).length * 2 := by
    rw [flatten_len_eq 2 ws hchunk, hwslen, List.length_map]
  have hN : (tileIndices w h 4 4).length * 2 = addPadding w 4 * addPadding h 4 * 2 := by
    rw [tileIndices_length]
    have hw4 : addPadding w 4 = (w + 4 - 1) / 4 * 4 := by
      unfold addPadding; split <;> omega
    have hh4 : addPadding h 4 = (h + 4 - 1) / 4 * 4 := by
      unfold addPadding; split <;> omega
    rw [hw4, hh4]
    generalize (w + 4 - 1) / 4 = A
    generalize (h + 4 - 1) / 4 = B
    ring
  obtain ⟨hfb, hlen2⟩ := fillBuffer_length _ _ ws hseq (le_of_eq (hflat.trans hN))
  exact ⟨_, hfb, hlen2⟩

theorem rgb5a3Go_some (raw : List Nat) (w h : Nat) (hlen : w * h ≤ raw.length) :
    ∃ out, rgb5a3Go raw w h = some out ∧
      out.length = addPadding w 4 * addPadding h 4 * 2 := by
  have hall : ∀ o ∈ (tileIndices w h 4 4).map (fun p =>
      rgb5a3Chunk raw w h p.1 p.2), o.isSome := by
    intro o ho
    obtain ⟨p, _, rfl⟩ := List.mem_map.mp ho
    obtain ⟨c, hc, _⟩ := rgb5a3Chunk_spec raw w h p.1 p.2 hlen
    rw [hc]
    rfl
  obtain ⟨ws, hseq, hwslen, hmem⟩ := seqOpt_all_some _ hall
  have hchunk : ∀ c ∈ ws, c.length ≤ 2 := by
    intro c hc
    obtain ⟨p, _, hp⟩ := List.mem_map.mp (hmem c hc)
    obtain ⟨c', hc', hlen'⟩ := rgb5a3Chunk_spec raw w h p.1 p.2 hlen
    rw [hc'] at hp
    injection hp with h1
    rw [← h1]
    exact hlen'
  have hflat : ws.flatten.length ≤ (tileIndices w h 4 4).length * 2 := by
    have := flatten_len_le 2 ws hchunk
    rw [hwslen, List.length_map] at this
    exact this
  have hN : (tileIndices w h 4 4).length * 2 = addPadding w 4 * addPadding h 4 * 2 := by
    rw [tileIndices_length]
    have hw4 : addPadding w 4 = (w + 4 - 1) / 4 * 4 := by
      unfold addPadding; split <;> omega
    have hh4 : addPadding h 4 = (h + 4 - 1) / 4 * 4 := by
      unfold addPadding; split <;> omega
    rw [hw4, hh4]
    generalize (w + 4 - 1) / 4 = A
    generalize (h + 4 - 1) / 4 = B
    ring
  obtain ⟨hfb, hlen2⟩ := fillBuffer_length _ _ ws hseq (le_trans hflat (le_of_eq hN))
  exact ⟨_, hfb, hlen2⟩

theorem imageToRGBA_length (img : GoImage) :
    (imageToRGBA img).length = (img.maxY - img.minY).toNat * (img.maxX - img.minX).toNat := by
  unfold imageToRGBA
  have hrow : ∀ c ∈ (rangeInt img.minY img.maxY).map (fun y =>
      (rangeInt img.minX img.maxX).map (fun x => packRGBA (img.pixAt x y))),
      c.length = (img.maxX - img.minX).toNat := by
    intro c hc
    obtain ⟨y, _, rfl⟩ := List.mem_map.mp hc
    rw [List.length_map, rangeInt_length]
  rw [flatten_len_eq _ _ hrow, List.length_map, rangeInt_length]

theorem imageToRGBA_mk_length (w h : Nat) (pix : Int → Int → Nat × Nat × Nat × Nat) :
    (imageToRGBA (mkImage w h pix)).length = w * h := by
  rw [imageToRGBA_length]
  simp [mkImage, Nat.mul_comm]

theorem mkImage_maxX (w h : Nat) (pix : Int → Int → Nat × Nat × Nat × Nat) :
    (mkImage w h pix).maxX.toNat = w := by
  simp [mkImage]

theorem mkImage_maxY (w h : Nat) (pix : Int → Int → Nat × Nat × Nat × Nat) :
    (mkImage w h pix).maxY.toNat = h := by
  simp [mkImage]

theorem ToI4_mk (w h : Nat) (pix : Int → Int → Nat × Nat × Nat × Nat) :
    ∃ payload, i4Go (imageToRGBA (mkImage w h pix)) w h = some payload ∧
      payload.length = addPadding w 8 * addPadding h 8 / 2 ∧
      ToI4 (mkImage w h pix) = some (makeTPLHeader payload I4 w h) := by
  obtain ⟨payload, hgo, hplen⟩ := i4Go_some (imageToRGBA (mkImage w h pix)) w h
    (le_of_eq (imageToRGBA_mk_length w h pix).symm)
  refine ⟨payload, hgo, hplen, ?_⟩
  unfold ToI4
  rw [mkImage_maxX, mkImage_maxY, hgo, Option.map_some']

theorem ToIA4_mk (w h : Nat) (pix : Int → Int → Nat × Nat × Nat × Nat) :
    ∃ payload, ia4Go (imageToRGBA (mkImage w h pix)) w h = some payload ∧
      payload.length = addPadding w 8 * addPadding h 4 ∧
      ToIA4 (mkImage w h pix) = some (makeTPLHeader payload IA4 w h) := by
  obtain ⟨payload, hgo, hplen⟩ := ia4Go_some (imageToRGBA (mkImage w h pix)) w h
    (le_of_eq (imageToRGBA_mk_length w h pix).symm)
  refine ⟨payload, hgo, hplen, ?_⟩
  unfold ToIA4
  rw [mkImage_maxX, mkImage_maxY, hgo, Option.map_some']

theorem ToRGB565_mk (w h : Nat) (pix : Int → Int → Nat × Nat × Nat × Nat) :
    ∃ payload, rgb565Go (imageToRGBA (mkImage w h pix)) w h = some payload ∧
      payload.length = addPadding w 4 * addPadding h 4 * 2 ∧
      ToRGB565 (mkImage w h pix) = some (makeTPLHeader payload RGB565 w h) := by
  obtain ⟨payload, hgo, hplen⟩ := rgb565Go_some (imageToRGBA (mkImage w h pix)) w h
    (le_of_eq (imageToRGBA_mk_length w h pix).symm)
  refine ⟨payload, hgo, hplen, ?_⟩
  unfold ToRGB565
  rw [mkImage_maxX, mkImage_maxY, hgo, Option.map_some']

theorem ToRGB5A3_mk (w h : Nat) (pix : Int → Int → Nat × Nat × Nat × Nat) :
    ∃ payload, rgb5a3Go (imageToRGBA (mkImage w h pix)) w h = some payload ∧
      payload.length = addPadding w 4 * addPadding h 4 * 2 ∧
      ToRGB5A3 (mkImage w h pix) = some (makeTPLHeader payload RGB5A3 w h) := by
  obtain ⟨payload, hgo, hplen⟩ := rgb5a3Go_some (imageToRGBA (mkImage w h pix)) w h
    (le_of_eq (imageToRGBA_mk_length w h pix).symm)
  refine ⟨payload, hgo, hplen, ?_⟩
  unfold ToRGB5A3
  rw [mkImage_maxX, mkImage_maxY, hgo, Option.map_some']

theorem makeTPLHeader_drop56 (raw : List Nat) (format width height : Nat) :
    (makeTPLHeader raw format width height).drop 56 = raw := rfl

theorem flatten_getElem {α : Type} (w : Nat) :
    ∀ (rows : List (List α)) (y x : Nat) (r : List α),
      (∀ q ∈ rows, q.length = w) → rows[y]? = some r → x < w →
      rows.flatten[y * w + x]? = r[x]? := by
  intro rows
  induction rows with
  | nil => intro y x r _ hy _; simp at hy
  | cons q rest ih =>
    intro y x r hw hy hx
    match y with
    | 0 =>
      rw [List.getElem?_cons_zero] at hy
      injection hy with h1
      subst h1
      rw [List.flatten_cons, Nat.zero_mul, Nat.zero_add]
      exact List.getElem?_append_left
        (by rw [hw q (List.mem_cons_self _ _)]; exact hx)
    | Nat.succ y' =>
      rw [List.getElem?_cons_succ] at hy
      rw [List.flatten_cons]
      have hqlen : q.length = w := hw q (List.mem_cons_self _ _)
      have hidx : (y' + 1) * w + x = q.length + (y' * w + x) := by
        rw [hqlen, Nat.succ_mul]; ring
      rw [hidx, List.getElem?_append_right (by omega)]
      have hsub : q.length + (y' * w + x) - q.length = y' * w + x := by omega
      rw [hsub]
      exact ih y' x r (fun p hp => hw p (List.mem_cons_of_mem _ hp)) hy hx

theorem imageToRGBA_mk_getElem (w h : Nat) (pix : Int → Int → Nat × Nat × Nat × Nat)
    (x y : Nat) (hx : x < w) (hy : y < h) :
    (imageToRGBA (mkImage w h pix))[y * w + x]? = some (packRGBA (pix x y)) := by
  unfold imageToRGBA
  have hrows : ∀ q ∈ (rangeInt (mkImage w h pix).minY (mkImage w h pix).maxY).map
      (fun yI => (rangeInt (mkImage w h pix).minX (mkImage w h pix).maxX).map
        (fun xI => packRGBA ((mkImage w h pix).pixAt xI yI))),
      q.length = w := by
    intro q hq
    obtain ⟨yI, _, rfl⟩ := List.mem_map.mp hq
    rw [List.length_map, rangeInt_length]
    simp [mkImage]
  have hrowy : ((rangeInt (mkImage w h pix).minY (mkImage w h pix).maxY).map
      (fun yI => (rangeInt (mkImage w h pix).minX (mkImage w h pix).maxX).map
        (fun xI => packRGBA ((mkImage w h pix).pixAt xI yI))))[y]?
      = some ((rangeInt (mkImage w h pix).minX (mkImage w h pix).maxX).map
        (fun xI => packRGBA ((mkImage w h pix).pixAt xI ((0 : Int) + (y : Int))))) := by
    rw [List.getElem?_map]
    show ((rangeInt (0 : Int) ((h : Nat) : Int))[y]?).map _ = _
    unfold rangeInt
    rw [List.getElem?_map, List.getElem?_range (by simpa using hy)]
    rfl
  rw [flatten_getElem w _ y x _ hrows hrowy hx]
  show ((rangeInt (0 : Int) ((w : Nat) : Int)).map _)[x]? = _
  unfold rangeInt
  rw [List.getElem?_map, List.getElem?_map, List.getElem?_range (by simpa using hx)]
  show some (packRGBA ((mkImage w h pix).pixAt ((0 : Int) + (x : Int)) ((0 : Int) + (y : Int)))) = _
  simp [mkImage]

/-! ## Claim theorems -/

/-- C7: for every successful conversion, the output blob begins with the fixed
big-endian header: bytes 0–3 are `0x00,0x20,0xAF,0x30` (magic `0x0020AF30`),
the image-count field bytes are `0x00,0x00,0x00,0x01`, the image-table-offset
field is `0x0C`, width and height are serialized as 16-bit values (height at
offset 20, width at offset 22), the data-offset field is 64, the LOD fields
(LODBias, EdgeLOD, MidLOD, MaxLOD) are all zero, and the encoded payload
follows the header with nothing in between. -/
theorem claim_C7_header_layout (raw : List Nat) (format width height : Nat) :
    (makeTPLHeader raw format width height).take 4 = [0x00, 0x20, 0xAF, 0x30] ∧
    ((makeTPLHeader raw format width height).drop 4).take 4 = [0, 0, 0, 1] ∧
    ((makeTPLHeader raw format width height).drop 8).take 4 = [0, 0, 0, 0x0C] ∧
    ((makeTPLHeader raw format width height).drop 20).take 2
      = [(height >>> 8) &&& 0xff, height &&& 0xff] ∧
    ((makeTPLHeader raw format width height).drop 22).take 2
      = [(width >>> 8) &&& 0xff, width &&& 0xff] ∧
    ((makeTPLHeader raw format width height).drop 28).take 4 = [0, 0, 0, 64] ∧
    ((makeTPLHeader raw format width height).drop 48).take 7 = [0, 0, 0, 0, 0, 0, 0] ∧
    (makeTPLHeader raw format width height).drop 56 = raw := by
  refine ⟨?_, ?_, ?_, ?_, ?_, ?_, ?_, ?_⟩ <;>
    simp [makeTPLHeader, tplHeaderBytes, u32BE, u16BE] <;> decide

/-- C9: the serialized header occupies exactly 56 bytes (12-byte file header,
4-byte image offset 20, 4-byte palette offset 0, 36-byte image header), so the
encoded payload begins at byte offset 56 of the output blob even though the
header's DataOffset field (bytes 28–31) contains 64. -/
theorem claim_C9_payload_at_56 (raw : List Nat) (format width height : Nat) :
    (tplHeaderBytes format width height).length = 56 ∧
    makeTPLHeader raw format width height = tplHeaderBytes format width height ++ raw ∧
    ((makeTPLHeader raw format width height).drop 12).take 4 = [0, 0, 0, 20] ∧
    ((makeTPLHeader raw format width height).drop 16).take 4 = [0, 0, 0, 0] ∧
    ((makeTPLHeader raw format width height).drop 28).take 4 = [0, 0, 0, 64] ∧
    (makeTPLHeader raw format width height).drop 56 = raw := by
  refine ⟨?_, rfl, ?_, ?_, ?_, ?_⟩ <;>
    simp [makeTPLHeader, tplHeaderBytes, u32BE, u16BE] <;> decide

/-- C8 counterexample: the claim says a conversion on an image with
non-positive width or height fails with an `InvalidImage` error; in the code a
conversion on a 0×0 image succeeds (there is no dimension check and no error
path at all). -/
theorem claim_C8_counterexample :
    (ToI4 (mkImage 0 0 (fun _ _ => (0, 0, 0, 0)))).isSome = true := by decide

/-- C8 (amended): a conversion call on an image with non-positive width or
height does not fail: the code defines no `InvalidImage` or
`BufferAllocationError`, and on a 0×0 image every encoder succeeds and returns
just the 56-byte header with an empty payload. -/
theorem claim_C8_amended (pix : Int → Int → Nat × Nat × Nat × Nat) :
    ToI4 (mkImage 0 0 pix) = some (tplHeaderBytes I4 0 0) ∧
    ToIA4 (mkImage 0 0 pix) = some (tplHeaderBytes IA4 0 0) ∧
    ToRGB565 (mkImage 0 0 pix) = some (tplHeaderBytes RGB565 0 0) ∧
    ToRGB5A3 (mkImage 0 0 pix) = some (tplHeaderBytes RGB5A3 0 0) := by
  refine ⟨?_, ?_, ?_, ?_⟩
  · obtain ⟨p, _, hl, hTo⟩ := ToI4_mk 0 0 pix
    have hp : p = [] := List.length_eq_zero.mp (by rw [hl]; decide)
    subst hp
    rw [hTo]
    rfl
  · obtain ⟨p, _, hl, hTo⟩ := ToIA4_mk 0 0 pix
    have hp : p = [] := List.length_eq_zero.mp (by rw [hl]; decide)
    subst hp
    rw [hTo]
    rfl
  · obtain ⟨p, _, hl, hTo⟩ := ToRGB565_mk 0 0 pix
    have hp : p = [] := List.length_eq_zero.mp (by rw [hl]; decide)
    subst hp
    rw [hTo]
    rfl
  · obtain ⟨p, _, hl, hTo⟩ := ToRGB5A3_mk 0 0 pix
    have hp : p = [] := List.length_eq_zero.mp (by rw [hl]; decide)
    subst hp
    rw [hTo]
    rfl

/-- C2 (code bug witness): on a 1×2 image whose pixel (0,1) is opaque white,
`ToRGB5A3` emits that texel's two bytes at payload offset 2–3 instead of at
the texel's tiled position (offset 8–9), because the output writes sit inside
the in-bounds branch and out-of-image positions emit nothing; `ToRGB565` on
the same image places the texel's bytes at offset 8–9 as the claim requires
for every encoder. -/
theorem claim_C2_rgb5a3_skips_padding :
    (ToRGB5A3 (mkImage 1 2 (fun _ y => if y = 1 then (65535, 65535, 65535, 65535)
        else (0, 0, 0, 0)))).map (fun out => out.drop 56)
      = some ([0x00, 0x00, 0xFF, 0xFF] ++ List.replicate 28 0) ∧
    (ToRGB565 (mkImage 1 2 (fun _ y => if y = 1 then (65535, 65535, 65535, 65535)
        else (0, 0, 0, 0)))).map (fun out => out.drop 56)
      = some ([0, 0, 0, 0, 0, 0, 0, 0, 0xFF, 0xFF] ++ List.replicate 22 0) := by
  constructor
  · decide
  · decide

/-- C1 counterexample: for a pure-red texel (r=255, g=0, b=0) the claim's
packing `red | (green<<5) | (blue<<11)` gives `0x001F`, but the encoder
produces `0xF800` — red lands in the high bits, not the low bits. -/
theorem claim_C1_counterexample :
    rgb565Pixel (packRGBA (255, 0, 0, 255)) = 0xF800 ∧
    (255 >>> 3) ||| ((0 >>> 2) <<< 5) ||| ((0 >>> 3) <<< 11) = 0x1F ∧
    (0xF800 : Nat) ≠ 0x1F := by decide

/-- C1 (amended): for every in-bounds texel, the RGB565 encoder quantizes
red and blue to 5 bits via `>>3` and green to 6 bits via `>>2`, and packs the
16-bit value as `blue | (green<<5) | (red<<11)` — blue in the low bits, red in
the high bits — emitted big-endian (high byte first, then low byte). -/
theorem claim_C1_amended :
    (∀ r g b a : Nat,
      rgb565Pixel (packRGBA (r, g, b, a)) =
        ((b &&& 0xff) >>> 3) ||| (((g &&& 0xff) >>> 2) <<< 5) |||
          (((r &&& 0xff) >>> 3) <<< 11)) ∧
    (∀ (raw : List Nat) (w h x y p : Nat), x < w → y < h → raw[x + y * w]? = some p →
      rgb565Chunk raw w h x y =
        some [(rgb565Pixel p >>> 8) &&& 0xff, rgb565Pixel p &&& 0xff]) := by
  constructor
  · intro r g b a
    rw [rgb565Pixel_pack]
    simp only [and255, shr2, shr3]
    rw [Nat.or_comm (b % 256 / 8) ((g % 256 / 4) <<< 5)]
    rw [or_shl_add (g % 256 / 4) (b % 256 / 8) 5 32 (by norm_num) (by omega)]
    rw [Nat.or_comm _ ((r % 256 / 8) <<< 11)]
    rw [or_shl_add (r % 256 / 8) _ 11 2048 (by norm_num) (by omega)]
    ring
  · intro raw w h x y p hx hy hp
    unfold rgb565Chunk
    rw [if_neg (by omega : ¬(y ≥ h ∨ x ≥ w)), hp]
    rfl

/-- C1 amended, witness: the single texel of a 1×1 pure-red image is encoded
as the big-endian bytes `0xF8, 0x00`. -/
theorem claim_C1_amended_witness :
    rgb565Chunk [packRGBA (255, 0, 0, 255)] 1 1 0 0 = some [0xF8, 0x00] := by
  have h := claim_C1_amended.2 [packRGBA (255, 0, 0, 255)] 1 1 0 0
    (packRGBA (255, 0, 0, 255)) (by decide) (by decide) (by decide)
  rw [h]
  decide

/-- C3: the RGB5A3 encoder selects its sub-mode by comparing alpha to 0xDA:
for alpha ≤ 0xDA it packs bit15=0, bits14-12 = `(a*7)/255`, bits11-8 =
`(r*15)/255`, bits7-4 = `(g*15)/255`, bits3-0 = `(b*15)/255`; for alpha >
0xDA it packs bit15=1, bits14-10 = `(r*31)/255`, bits9-5 = `(g*31)/255`,
bits4-0 = `(b*31)/255` with alpha dropped; the 16-bit value is emitted
big-endian; and a black fully-opaque texel encodes as bytes `0x80, 0x00`. -/
theorem claim_C3_rgb5a3_modes :
    (∀ r g b a : Nat,
      rgb5a3Pixel (packRGBA (r, g, b, a)) =
        if (a &&& 0xff) ≤ 0xDA then
          (((a &&& 0xff) * 7 / 255) <<< 12) ||| (((r &&& 0xff) * 15 / 255) <<< 8) |||
            (((g &&& 0xff) * 15 / 255) <<< 4) ||| ((b &&& 0xff) * 15 / 255)
        else
          (1 <<< 15) ||| (((r &&& 0xff) * 31 / 255) <<< 10) |||
            (((g &&& 0xff) * 31 / 255) <<< 5) ||| ((b &&& 0xff) * 31 / 255)) ∧
    (∀ r g b a : Nat,
      rgb5a3Pixel (packRGBA (r, g, b, a)) >>> 15
        = if (a &&& 0xff) ≤ 0xDA then 0 else 1) ∧
    (∀ (raw : List Nat) (w h x y p : Nat), x < w → y < h → raw[x + y * w]? = some p →
      rgb5a3Chunk raw w h x y =
        some [(rgb5a3Pixel p >>> 8) &&& 0xff, rgb5a3Pixel p &&& 0xff]) ∧
    ((((ToRGB5A3 (mkImage 1 1 (fun _ _ => (0, 0, 0, 65535)))).getD []).drop 56).take 2
      = [0x80, 0x00]) := by
  refine ⟨?_, ?_, ?_, ?_⟩
  · intro r g b a
    rw [rgb5a3Pixel_pack]
    simp only [and255]
    by_cases h : a % 256 ≤ 218
    · rw [if_pos h, if_pos h]
      rw [Nat.or_assoc, Nat.or_assoc]
      rw [or_shl_add ((g % 256) * 15 / 255) ((b % 256) * 15 / 255) 4 16
        (by norm_num) (by omega)]
      rw [or_shl_add ((r % 256) * 15 / 255) _ 8 256 (by norm_num) (by omega)]
      rw [or_shl_add ((a % 256) * 7 / 255) _ 12 4096 (by norm_num) (by omega)]
      ring
    · rw [if_neg h, if_neg h]
      rw [Nat.or_assoc, Nat.or_assoc]
      rw [or_shl_add ((g % 256) * 31 / 255) ((b % 256) * 31 / 255) 5 32
        (by norm_num) (by omega)]
      rw [or_shl_add ((r % 256) * 31 / 255) _ 10 1024 (by norm_num) (by omega)]
      rw [or_shl_add 1 _ 15 32768 (by norm_num) (by omega)]
      ring
  · intro r g b a
    rw [rgb5a3Pixel_pack, shr15]
    simp only [and255]
    by_cases h : a % 256 ≤ 218
    · rw [if_pos h, if_pos h]
      omega
    · rw [if_neg h, if_neg h]
      omega
  · intro raw w h x y p hx hy hp
    unfold rgb5a3Chunk
    rw [if_neg (by omega : ¬(y ≥ h ∨ x ≥ w)), hp]
  · decide

/-- C3, witness: a texel with r=g=b=0, a=255 (an in-bounds read of a 1×1
image) takes the opaque branch and is emitted as bytes `0x80, 0x00`. -/
theorem claim_C3_rgb5a3_modes_witness :
    rgb5a3Chunk [packRGBA (0, 0, 0, 255)] 1 1 0 0 = some [0x80, 0x00] := by
  have h := claim_C3_rgb5a3_modes.2.2.1 [packRGBA (0, 0, 0, 255)] 1 1 0 0
    (packRGBA (0, 0, 0, 255)) (by decide) (by decide) (by decide)
  rw [h]
  decide

/-- C5: the I4 encoder packs each pair of horizontally consecutive texels into
one byte — high nibble the first texel's quantized intensity, low nibble the
second's, with the second falling back to a zero word when its linear index is
outside the texel array; the intensity is `(r+g+b)/3` quantized as
`(i*15)/255`; and for a 1×1 fully-opaque white image the first payload byte
has high nibble 15 and low nibble 0. -/
theorem claim_C5_i4_pairs :
    (∀ (raw : List Nat) (w h x y p1 : Nat), x < w → y < h → raw[x + y * w]? = some p1 →
      i4Byte raw w h x y = some (((texQuant p1 <<< 4) |||
        (texQuant (if x + y * w + 1 ≥ raw.length then 0 else raw.getD (x + y * w + 1) 0)
          &&& 0xf)) &&& 0xff)) ∧
    (∀ r g b a : Nat, texQuant (packRGBA (r, g, b, a))
        = ((r &&& 0xff) + (g &&& 0xff) + (b &&& 0xff)) / 3 * 15 / 255) ∧
    ((((ToI4 (mkImage 1 1 (fun _ _ => (65535, 65535, 65535, 65535)))).getD []).getD 56 0) >>> 4
        = 15) ∧
    ((((ToI4 (mkImage 1 1 (fun _ _ => (65535, 65535, 65535, 65535)))).getD []).getD 56 0) &&& 0xf
        = 0) := by
  refine ⟨?_, ?_, ?_, ?_⟩
  · intro raw w h x y p1 hx hy hp
    unfold i4Byte
    rw [if_neg (by omega : ¬(x ≥ w ∨ y ≥ h)), hp]
    exact rfl
  · intro r g b a
    rw [texQuant_pack]
    simp only [and255]
    omega
  · decide
  · decide

/-- C5, witness: the pair byte of the single texel of a 1×1 opaque white
image (second texel out of the array) is `0xF0`. -/
theorem claim_C5_i4_pairs_witness :
    i4Byte [packRGBA (65535, 65535, 65535, 65535)] 1 1 0 0 = some 0xF0 := by
  have h := claim_C5_i4_pairs.1 [packRGBA (65535, 65535, 65535, 65535)] 1 1 0 0
    (packRGBA (65535, 65535, 65535, 65535)) (by decide) (by decide) (by decide)
  rw [h]
  decide

/-- C6: the IA4 encoder emits exactly one output byte per in-bounds texel,
whose low nibble is the intensity `(r+g+b)/3` quantized as `(i*15)/255` and
whose high nibble is the alpha channel quantized as `(a*15)/255`; it walks the
image in 8-wide by 4-high blocks, emitting one byte per walked position
(payload length `pad(w,8)*pad(h,4)`). -/
theorem claim_C6_ia4_bytes :
    (∀ r g b a : Nat, ia4Pixel (packRGBA (r, g, b, a)) &&& 0xf
        = ((r &&& 0xff) + (g &&& 0xff) + (b &&& 0xff)) / 3 * 15 / 255) ∧
    (∀ r g b a : Nat, ia4Pixel (packRGBA (r, g, b, a)) >>> 4
        = (a &&& 0xff) * 15 / 255) ∧
    (∀ (raw : List Nat) (w h x y p : Nat), y < h → x < w → raw[x + y * w]? = some p →
      ia4Byte raw w h x y = some (ia4Pixel p)) ∧
    (∀ (w h : Nat) (pix : Int → Int → Nat × Nat × Nat × Nat),
      ∃ payload, ia4Go (imageToRGBA (mkImage w h pix)) w h = some payload ∧
        ToIA4 (mkImage w h pix) = some (makeTPLHeader payload IA4 w h) ∧
        payload.length = addPadding w 8 * addPadding h 4) := by
  refine ⟨?_, ?_, ?_, ?_⟩
  · intro r g b a
    rw [ia4Pixel_pack, and15]
    simp only [and255]
    omega
  · intro r g b a
    rw [ia4Pixel_pack, shr4]
    simp only [and255]
    omega
  · intro raw w h x y p hy hx hp
    unfold ia4Byte
    rw [if_neg (by omega : ¬(y ≥ h ∨ x ≥ w)), hp]
  · intro w h pix
    obtain ⟨payload, hgo, hlen, hTo⟩ := ToIA4_mk w h pix
    exact ⟨payload, hgo, hTo, hlen⟩

/-- C6, witness: an opaque white texel (an in-bounds read of a 1×1 image)
produces the single byte `0xFF` (intensity nibble 15, alpha nibble 15). -/
theorem claim_C6_ia4_bytes_witness :
    ia4Byte [packRGBA (65535, 65535, 65535, 65535)] 1 1 0 0 = some 0xFF := by
  have h := claim_C6_ia4_bytes.2.2.1 [packRGBA (65535, 65535, 65535, 65535)] 1 1 0 0
    (packRGBA (65535, 65535, 65535, 65535)) (by decide) (by decide) (by decide)
  rw [h]
  decide

/-- C4: for every image (bounds minimum (0,0)) and each of the four formats,
the encoded payload (the blob after the 56-byte header) has length exactly
`pad(W,blockW) * pad(H,blockH) * bitsPerTexel / 8`: I4 8×8 blocks at 4
bits/texel, IA4 8×4 blocks at 8 bits/texel, RGB565 and RGB5A3 4×4 blocks at
16 bits/texel. -/
theorem claim_C4_payload_sizes (w h : Nat) (pix : Int → Int → Nat × Nat × Nat × Nat) :
    (∃ out, ToI4 (mkImage w h pix) = some out ∧
      (out.drop 56).length = addPadding w 8 * addPadding h 8 * 4 / 8) ∧
    (∃ out, ToIA4 (mkImage w h pix) = some out ∧
      (out.drop 56).length = addPadding w 8 * addPadding h 4 * 8 / 8) ∧
    (∃ out, ToRGB565 (mkImage w h pix) = some out ∧
      (out.drop 56).length = addPadding w 4 * addPadding h 4 * 16 / 8) ∧
    (∃ out, ToRGB5A3 (mkImage w h pix) = some out ∧
      (out.drop 56).length = addPadding w 4 * addPadding h 4 * 16 / 8) := by
  refine ⟨?_, ?_, ?_, ?_⟩
  · obtain ⟨p, _, hlen, hTo⟩ := ToI4_mk w h pix
    refine ⟨_, hTo, ?_⟩
    rw [makeTPLHeader_drop56, hlen]
    generalize addPadding w 8 * addPadding h 8 = X
    omega
  · obtain ⟨p, _, hlen, hTo⟩ := ToIA4_mk w h pix
    refine ⟨_, hTo, ?_⟩
    rw [makeTPLHeader_drop56, hlen]
    generalize addPadding w 8 * addPadding h 4 = X
    omega
  · obtain ⟨p, _, hlen, hTo⟩ := ToRGB565_mk w h pix
    refine ⟨_, hTo, ?_⟩
    rw [makeTPLHeader_drop56, hlen]
    generalize addPadding w 4 * addPadding h 4 = X
    omega
  · obtain ⟨p, _, hlen, hTo⟩ := ToRGB5A3_mk w h pix
    refine ⟨_, hTo, ?_⟩
    rw [makeTPLHeader_drop56, hlen]
    generalize addPadding w 4 * addPadding h 4 = X
    omega

/-- C10: the encoders take width and height from the bounds' maximum corner
while the flat texel array is sized by the extent (`Max - Min`); for an image
whose bounds minimum is (0,0), the texel array has length `width*height`,
element `y*width+x` holds the pixel at (x,y) packed as
`(a<<24)|(r<<16)|(g<<8)|b` with channels masked to 8 bits, and every
texel-array access of every encoder stays in bounds (no encoder hits the
out-of-range/`none` path). -/
theorem claim_C10_array_bounds (w h : Nat) (pix : Int → Int → Nat × Nat × Nat × Nat) :
    (∀ img : GoImage, (imageToRGBA img).length
        = (img.maxY - img.minY).toNat * (img.maxX - img.minX).toNat) ∧
    ((imageToRGBA (mkImage w h pix)).length = w * h) ∧
    (∀ x y : Nat, x < w → y < h →
      (imageToRGBA (mkImage w h pix))[y * w + x]? = some (packRGBA (pix x y))) ∧
    (ToI4 (mkImage w h pix)).isSome = true ∧
    (ToIA4 (mkImage w h pix)).isSome = true ∧
    (ToRGB565 (mkImage w h pix)).isSome = true ∧
    (ToRGB5A3 (mkImage w h pix)).isSome = true := by
  refine ⟨imageToRGBA_length, imageToRGBA_mk_length w h pix, ?_, ?_, ?_, ?_, ?_⟩
  · intro x y hx hy
    exact imageToRGBA_mk_getElem w h pix x y hx hy
  · obtain ⟨p, _, _, hTo⟩ := ToI4_mk w h pix
    rw [hTo]
    rfl
  · obtain ⟨p, _, _, hTo⟩ := ToIA4_mk w h pix
    rw [hTo]
    rfl
  · obtain ⟨p, _, _, hTo⟩ := ToRGB565_mk w h pix
    rw [hTo]
    rfl
  · obtain ⟨p, _, _, hTo⟩ := ToRGB5A3_mk w h pix
    rw [hTo]
    rfl

/-- C10, witness: on a concrete 1×1 image, texel-array element 0 holds the
packed pixel value. -/
theorem claim_C10_array_bounds_witness :
    (imageToRGBA (mkImage 1 1 (fun _ _ => (1, 2, 3, 4))))[0]?
      = some (packRGBA (1, 2, 3, 4)) := by
  have h := (claim_C10_array_bounds 1 1 (fun _ _ => (1, 2, 3, 4))).2.2.1 0 0
    (by decide) (by decide)
  simpa using h

/-- C7, witness instantiation at a concrete header. -/
theorem claim_C7_header_layout_witness :
    (makeTPLHeader [] 0 0 0).take 4 = [0x00, 0x20, 0xAF, 0x30] :=
  (claim_C7_header_layout [] 0 0 0).1

/-- C9, witness instantiation at a concrete header. -/
theorem claim_C9_payload_at_56_witness :
    (tplHeaderBytes 0 7 9).length = 56 :=
  (claim_C9_payload_at_56 [] 0 7 9).1

/-- C8 amended, witness instantiation at a concrete pixel function. -/
theorem claim_C8_amended_witness :
    ToI4 (mkImage 0 0 (fun _ _ => (0, 0, 0, 0))) = some (tplHeaderBytes I4 0 0) :=
  (claim_C8_amended (fun _ _ => (0, 0, 0, 0))).1

/-- C4, witness: a 1×1 image's I4 payload is 32 bytes (`pad(1,8)² * 4/8`). -/
theorem claim_C4_payload_sizes_witness :
    ∃ out, ToI4 (mkImage 1 1 (fun _ _ => (0, 0, 0, 0))) = some out ∧
      (out.drop 56).length = 32 := by
  obtain ⟨out, h1, h2⟩ := (claim_C4_payload_sizes 1 1 (fun _ _ => (0, 0, 0, 0))).1
  refine ⟨out, h1, ?_⟩
  rw [h2]
  decide
